import Mathlib

set_option maxRecDepth 20000

/-!
Verification development for the fce-custom-pii-flagger repository.

The development shallowly embeds the two source files:

* `src/pii_detector.py` — Elasticsearch query compilation (`build_complete_query`,
  `build_checksum_regex`, `build_update_query`, `load_checksum_algorithm`,
  `trim_test_lines`, `execute_update`).  Queries are modelled as explicit clause
  trees, strings as `String` or `List Char`, the file system of checksum
  algorithm definitions as a lookup function `String → Option (List Char)`, and
  the network side-effects of `execute_update` as an explicit action trace.
  The control flow of the generated Painless update scripts (which the Python
  code assembles as text) is embedded as Lean functions mirroring the generated
  loops (`checksumFirstPass`, `piiChecksumFlag`, `nerChecksumUpdate`).

* `src/search_to_html.py` — the HTML highlighter
  (`highlight_document_text_html`).  The Python regex engine is abstracted as
  an oracle: the lists of pattern occurrences and context occurrences
  (`re.finditer` results, i.e. (start, end, matchedText) triples) are inputs,
  and a `none` pattern scan models `re.error` on a malformed pattern.  All of
  the logic downstream of `re.finditer` — near/far classification, span
  collection, the (start asc, end desc) sort, greedy overlap resolution, and
  segment emission — is embedded directly from the source.
-/

namespace FcePii

/-! ## Embedding of src/search_to_html.py -/

/-- Highlight span kinds: pattern match (purple), context word near a
following pattern occurrence (green), context word far from every following
pattern occurrence (red).  From the three span classes emitted by
`highlight_document_text_html` (src/search_to_html.py lines 57-74). -/
inductive HKind where
  | pat
  | near
  | far
deriving DecidableEq, Repr

/-- A candidate highlighted range `(start, end, highlight_type, matched_text)`
as collected in `highlighted_ranges` (src/search_to_html.py lines 54-74). -/
structure HRange where
  rstart : Nat
  rstop : Nat
  kind : HKind
  mtext : List Char
deriving DecidableEq, Repr

/-- Near/far classification of one context occurrence `(cstart, cend)` against
the list of pattern occurrences, from src/search_to_html.py lines 63-71:
near iff some pattern occurrence starts strictly after the context
occurrence's START and `pattern_start - context_end <= proximity_chars`
(the distance is computed with integer arithmetic and may be negative when
the two occurrences overlap). -/
def contextIsNear (pms : List (Nat × Nat)) (cstart cend : Nat) (prox : Int) : Bool :=
  pms.any fun pm => decide (cstart < pm.1) && decide ((pm.1 : Int) - (cend : Int) ≤ prox)

/-- The near/far classification the specification describes (modelled from the
spec claim wording, for comparison with `contextIsNear`): near iff some
pattern occurrence starts at or after the position where the context
occurrence ends, within the proximity window. -/
def contextIsNearClaim (pms : List (Nat × Nat)) (cstart cend : Nat) (prox : Int) : Prop :=
  ∃ pm ∈ pms, cend ≤ pm.1 ∧ (pm.1 : Int) - (cend : Int) ≤ prox ∧ cstart < pm.1

/-- Collect all candidate ranges: pattern occurrences keep their span and
text; every context occurrence is classified near/far against the pattern
occurrence list (src/search_to_html.py lines 54-74).  Occurrences are
`(start, end, matchedText)` triples as produced by `re.finditer`. -/
def buildRanges (pms cms : List (Nat × Nat × List Char)) (prox : Int) : List HRange :=
  pms.map (fun m => ⟨m.1, m.2.1, HKind.pat, m.2.2⟩) ++
    cms.map (fun m =>
      ⟨m.1, m.2.1,
        if contextIsNear (pms.map fun p => (p.1, p.2.1)) m.1 m.2.1 prox then HKind.near
        else HKind.far,
        m.2.2⟩)

/-- The sort key of `highlighted_ranges.sort(key=lambda x: (x[0], -x[1]))`
(src/search_to_html.py line 77): start ascending, then end descending. -/
abbrev keyLe (a b : HRange) : Prop :=
  a.rstart < b.rstart ∨ (a.rstart = b.rstart ∧ b.rstop ≤ a.rstop)

/-- The re-sort key of `unique_ranges.sort(key=lambda x: x[0])`
(src/search_to_html.py line 97): start ascending. -/
abbrev startLe (a b : HRange) : Prop := a.rstart ≤ b.rstart

instance : DecidableRel keyLe := fun a b =>
  decidable_of_iff (a.rstart < b.rstart ∨ (a.rstart = b.rstart ∧ b.rstop ≤ a.rstop)) Iff.rfl

instance : DecidableRel startLe := fun a b =>
  decidable_of_iff (a.rstart ≤ b.rstart) Iff.rfl

instance : IsTotal HRange startLe :=
  ⟨fun a b => Nat.le_total a.rstart b.rstart⟩

instance : IsTrans HRange startLe :=
  ⟨fun _ _ _ h1 h2 => Nat.le_trans h1 h2⟩

instance : IsTotal HRange keyLe := by
  constructor
  intro a b
  rcases Nat.lt_trichotomy a.rstart b.rstart with h | h | h
  · exact Or.inl (Or.inl h)
  · rcases Nat.le_total b.rstop a.rstop with h2 | h2
    · exact Or.inl (Or.inr ⟨h, h2⟩)
    · exact Or.inr (Or.inr ⟨h.symm, h2⟩)
  · exact Or.inr (Or.inl h)

instance : IsTrans HRange keyLe := by
  constructor
  intro a b c h1 h2
  rcases h1 with h1 | ⟨h1, h1s⟩ <;> rcases h2 with h2 | ⟨h2, h2s⟩
  · exact Or.inl (Nat.lt_trans h1 h2)
  · exact Or.inl (h2 ▸ h1)
  · exact Or.inl (h1 ▸ h2)
  · exact Or.inr ⟨h1.trans h2, Nat.le_trans h2s h1s⟩

/-- Stable sort by (start ascending, end descending), the Python
`list.sort(key=lambda x: (x[0], -x[1]))` of src/search_to_html.py line 77. -/
def sortRanges (l : List HRange) : List HRange := List.insertionSort keyLe l

/-- Stable re-sort by start position, src/search_to_html.py line 97. -/
def resortRanges (l : List HRange) : List HRange := List.insertionSort startLe l

/-- The overlap test of src/search_to_html.py line 89 between a candidate span
`(s1, e1)` and a previously kept span `(s2, e2)`:
`not (end <= s or start >= e)`. -/
def overlapsB (s1 e1 s2 e2 : Nat) : Bool :=
  !(decide (e1 ≤ s2) || decide (e2 ≤ s1))

/-- Greedy overlap resolution (src/search_to_html.py lines 83-94): walk the
sorted candidates, keep a range only if it overlaps none of the spans kept
so far (`seen_ranges`), and record kept spans. -/
def dedupeRanges : List HRange → List (Nat × Nat) → List HRange
  | [], _ => []
  | r :: rest, seen =>
    if seen.any (fun se => overlapsB r.rstart r.rstop se.1 se.2) then
      dedupeRanges rest seen
    else
      r :: dedupeRanges rest ((r.rstart, r.rstop) :: seen)

/-- Non-overlap of two kept ranges, the propositional form of
`overlapsB _ _ _ _ = false`. -/
def NoOv (a b : HRange) : Prop := a.rstop ≤ b.rstart ∨ b.rstop ≤ a.rstart

/-- An emitted output segment: literal text between highlights, or a
highlighted span (src/search_to_html.py lines 100-118). -/
inductive Seg where
  | lit (cs : List Char)
  | hl (k : HKind) (cs : List Char)
deriving DecidableEq, Repr

/-- Emission loop of src/search_to_html.py lines 100-118: for each kept range,
emit the literal text from `last_pos` up to its start (when `start > last_pos`),
then the highlighted matched text, advancing `last_pos` to its end; finally
emit the tail `text[last_pos:]` when non-empty. -/
def buildSegs (text : List Char) : Nat → List HRange → List Seg
  | lastPos, [] =>
    if lastPos < text.length then [Seg.lit (text.drop lastPos)] else []
  | lastPos, r :: rest =>
    (if lastPos < r.rstart then [Seg.lit ((text.drop lastPos).take (r.rstart - lastPos))]
     else []) ++
      Seg.hl r.kind r.mtext :: buildSegs text r.rstop rest

/-- The raw text carried by a segment (highlight markup stripped). -/
def stripSeg : Seg → List Char
  | Seg.lit cs => cs
  | Seg.hl _ cs => cs

/-- Concatenated raw text of a segment list: the rendered output with all
highlight markup stripped and HTML escaping undone. -/
def stripSegs : List Seg → List Char
  | [] => []
  | s :: rest => stripSeg s ++ stripSegs rest

/-- Python `html.escape(c, quote=True)` on a single character. -/
def escChar (c : Char) : List Char :=
  if c = '&' then "&amp;".data
  else if c = '<' then "&lt;".data
  else if c = '>' then "&gt;".data
  else if c = '"' then "&quot;".data
  else if c = Char.ofNat 39 then "&#x27;".data
  else [c]

/-- Python `html.escape` over a string (character-wise). -/
def htmlEscape : List Char → List Char
  | [] => []
  | c :: cs => escChar c ++ htmlEscape cs

/-- Opening span tag for each highlight kind (src/search_to_html.py
lines 107-112). -/
def spanOpen : HKind → List Char
  | HKind.pat => "<span class=\"pattern\">".data
  | HKind.near => "<span class=\"context-near\">".data
  | HKind.far => "<span class=\"context-far\">".data

/-- HTML rendering of one segment. -/
def renderSeg : Seg → List Char
  | Seg.lit cs => htmlEscape cs
  | Seg.hl k cs => spanOpen k ++ htmlEscape cs ++ "</span>".data

/-- HTML rendering of a segment list. -/
def renderSegs : List Seg → List Char
  | [] => []
  | s :: rest => renderSeg s ++ renderSegs rest

/-- The whole highlight pipeline after `re.finditer`: collect candidate
ranges, sort by (start, -end), greedily drop overlaps, re-sort by start and
emit segments (src/search_to_html.py lines 54-118). -/
def highlightSegments (text : List Char) (pms cms : List (Nat × Nat × List Char))
    (prox : Int) : List Seg :=
  buildSegs text 0 (resortRanges (dedupeRanges (sortRanges (buildRanges pms cms prox)) []))

/-- Top level of `highlight_document_text_html` (src/search_to_html.py
lines 36-120).  `patternGiven` models the truthiness test of `pattern_regex`
on line 36; `patternScan = none` models `re.error` being raised while
scanning for pattern matches (line 44), `some pms` a successful scan
returning the occurrence list. -/
def highlight_document_text_html (text : List Char) (patternGiven : Bool)
    (patternScan : Option (List (Nat × Nat × List Char)))
    (cms : List (Nat × Nat × List Char)) (prox : Int) : List Char :=
  if text.isEmpty || !patternGiven then htmlEscape text
  else
    match patternScan with
    | none => htmlEscape text
    | some pms => renderSegs (highlightSegments text pms cms prox)

/-- A `re.finditer` occurrence `(start, end, matchedText)` is well formed for
`text` when its span is non-empty, lies inside the text, and its matched text
is the corresponding slice (as `match.group()` guarantees). -/
def ValidMatch (text : List Char) (m : Nat × Nat × List Char) : Prop :=
  m.1 < m.2.1 ∧ m.2.1 ≤ text.length ∧ m.2.2 = (text.drop m.1).take (m.2.1 - m.1)

/-! ## Embedding of src/pii_detector.py -/

/-- The configuration consumed from the YAML file: field name, pattern regex
string, context word list and optional checksum algorithm name, with the
defaults applied by the `config.get` calls of src/pii_detector.py. -/
structure PiiConfig where
  fieldName : String
  patternRegex : String
  contextWords : List String
  checksum : Option String
deriving DecidableEq, Repr

/-- One Elasticsearch bool-query clause as emitted by `build_complete_query`:
a field-existence test, a `query_string` over a default field, or a `regexp`
on a field. -/
inductive EsClause where
  | existsField (field : String)
  | queryString (query : String) (defaultField : String)
  | regexp (field : String) (value : String)
deriving DecidableEq, Repr

/-- The emitted bool query: `must` and `must_not` clause lists
(src/pii_detector.py lines 114-119). -/
structure BoolQuery where
  must : List EsClause
  mustNot : List EsClause
deriving DecidableEq, Repr

/-- Context-word fragment of the `query_string` clause: phrases containing a
space are wrapped in double quotes, single words are used verbatim
(src/pii_detector.py lines 68-74). -/
def contextQueryPart (w : String) : String :=
  if w.data.contains ' ' then "\"" ++ w ++ "\"" else w

/-- `build_complete_query` (src/pii_detector.py lines 35-119): `must` always
holds the `document_text` existence test, then the context `query_string`
when context words exist, then (outside reverse mode) the pattern `regexp` on
the keyword subfield; `must_not` holds the target-field existence test when a
field name is given and search mode is off, then (in reverse mode) the
pattern `regexp`. -/
def build_complete_query (cfg : PiiConfig) (field : String) (field_name : Option String)
    (reverse search_mode ner_mode : Bool) : BoolQuery :=
  let must0 := [EsClause.existsField "document_text"]
  let must1 :=
    if cfg.contextWords.isEmpty then must0
    else
      must0 ++
        [EsClause.queryString
          (String.intercalate " OR " (cfg.contextWords.map contextQueryPart)) "document_text"]
  let must2 :=
    if reverse then must1
    else must1 ++ [EsClause.regexp (field ++ ".keyword") (".*" ++ cfg.patternRegex ++ ".*")]
  let mustNot0 :=
    match field_name with
    | some fn =>
      if search_mode then []
      else [EsClause.existsField ((if ner_mode then "named_entities" else "PII") ++ "." ++ fn)]
    | none => []
  let mustNot1 :=
    if reverse then
      mustNot0 ++ [EsClause.regexp (field ++ ".keyword") (".*" ++ cfg.patternRegex ++ ".*")]
    else mustNot0
  ⟨must2, mustNot1⟩

/-- Python `str.join` semantics, used to state properties of
`String.intercalate` independently of its accumulator implementation. -/
def joinWith (sep : String) : List String → String
  | [] => ""
  | [w] => w
  | w :: x :: ws => w ++ sep ++ joinWith sep (x :: ws)

/-- `str.replace('/', '\\/')` of src/pii_detector.py line 214, character by
character. -/
def escSlashes : List Char → List Char
  | [] => []
  | c :: cs => if c = '/' then '\\' :: '/' :: escSlashes cs else c :: escSlashes cs

/-- String form of `escSlashes`. -/
def escapeSlashes (s : String) : String := String.mk (escSlashes s.data)

/-- `build_checksum_regex` (src/pii_detector.py lines 199-218): the context
alternation is the context words joined verbatim by a pipe (or the
match-anything `.*` when the list is empty), the pattern has each `/` escaped
for the Painless regex literal, and the composite is
`(?i)(<alternation>)[\s\S]\x7b0,50\x7d?(<escaped pattern>)`. -/
def build_checksum_regex (pattern_regex : String) (context_words : List String) : String :=
  let context_regex :=
    if context_words.isEmpty then ".*" else String.intercalate "|" context_words
  let escaped_pattern := escapeSlashes pattern_regex
  "(?i)(" ++ context_regex ++ ")[\\s\\S]\x7b0,50\x7d?(" ++ escaped_pattern ++ ")"

/-- The special characters escaped by Python `re.escape` (CPython 3.7+). -/
def reSpecials : List Char :=
  "()[]\x7b\x7d?*+-|^$\\.&~# \t\n\r".data ++ [Char.ofNat 11, Char.ofNat 12]

/-- Python `re.escape` over the characters of a word. -/
def reEscapeChars : List Char → List Char
  | [] => []
  | c :: cs =>
    if reSpecials.contains c then '\\' :: c :: reEscapeChars cs else c :: reEscapeChars cs

/-- Python `re.escape` on a string. -/
def reEscape (s : String) : String := String.mk (reEscapeChars s.data)

/-- The composite regex the claim describes (modelled from the spec wording,
for comparison with `build_checksum_regex`): context words each escaped for
literal regex use, joined by OR, with a `maxGap` bound. -/
def build_checksum_regex_claim (maxGap : Nat) (pattern_regex : String)
    (context_words : List String) : String :=
  let alternation :=
    if context_words.isEmpty then ".*"
    else String.intercalate "|" (context_words.map reEscape)
  "(?i)(" ++ alternation ++ ")[\\s\\S]\x7b0," ++ toString maxGap ++ "\x7d?(" ++
    pattern_regex ++ ")"

/-- `/[^0-9]/.matcher(rawMatch).replaceAll('')` from the generated Painless
scripts (src/pii_detector.py lines 255 and 258): strip every non-digit. -/
def cleanDigits (raw : List Char) : List Char := raw.filter Char.isDigit

/-- The `while (matcher.find())` loop of the generated checksum Painless
scripts (src/pii_detector.py lines 255 and 258), with the regex matcher
abstracted as the list of group-2 captures in document order and the inlined
checksum fragment abstracted as a predicate on the cleaned digit string:
returns the raw (pre-clean) text of the first capture whose cleaned digits
pass the checksum, if any. -/
def checksumFirstPass (passes : List Char → Bool) : List (List Char) → Option (List Char)
  | [] => none
  | raw :: rest =>
    if passes (cleanDigits raw) then some raw else checksumFirstPass passes rest

/-- Final value of `passChecksum` written by the PII-mode checksum script
(src/pii_detector.py line 258). -/
def piiChecksumFlag (passes : List Char → Bool) (groups : List (List Char)) : Bool :=
  (checksumFirstPass passes groups).isSome

/-- Effect of the NER-mode checksum script (src/pii_detector.py line 255) on
the target field: the field is set to `firstMatch` only when `firstMatch` is
non-null, otherwise the document is left untouched. -/
def nerChecksumUpdate (passes : List Char → Bool) (groups : List (List Char))
    (doc : Option (List Char)) : Option (List Char) :=
  match checksumFirstPass passes groups with
  | some v => some v
  | none => doc

/-! ### Checksum algorithm loading (`load_checksum_algorithm`, `trim_test_lines`) -/

/-- Whitespace characters matched by Python `\s` (and stripped by
`str.strip`) for ASCII content: space, tab, newline, carriage return,
vertical tab, form feed. -/
def isWS (c : Char) : Bool :=
  c = ' ' || c = '\t' || c = '\n' || c = '\r' || c = Char.ofNat 11 || c = Char.ofNat 12

/-- Python `str.startswith` at the character-list level (prefix test used by
the substring test below). -/
def hasPre : List Char → List Char → Bool
  | [], _ => true
  | _ :: _, [] => false
  | a :: as, b :: bs => a == b && hasPre as bs

/-- Python `marker in line` substring containment
(src/pii_detector.py lines 171 and 179). -/
def hasSub (m : List Char) : List Char → Bool
  | [] => hasPre m []
  | l@(_ :: rest) => hasPre m l || hasSub m rest

/-- Python `str.split('\n')`: cut at every newline, keeping empty pieces; the
result is always non-empty. -/
def splitNL : List Char → List (List Char)
  | [] => [[]]
  | c :: rest =>
    if c = '\n' then [] :: splitNL rest
    else
      match splitNL rest with
      | r :: rs => (c :: r) :: rs
      | [] => [[c]]

/-- Python `'\n'.join`. -/
def joinNL : List (List Char) → List Char
  | [] => []
  | [l] => l
  | l :: x :: ls => l ++ '\n' :: joinNL (x :: ls)

/-- The start marker of `trim_test_lines` (src/pii_detector.py line 168). -/
def startMarker : List Char :=
  "// Anything on this line or above will be removed".data

/-- The end marker of `trim_test_lines` (src/pii_detector.py line 176). -/
def endMarker : List Char :=
  "// Return statement goes here so you can validate if passChecksum is working in your lab".data

/-- The `for i, line in enumerate(lines): if marker in line: ...; break` loops
of src/pii_detector.py lines 170-181: index of the first line containing the
marker. -/
def findMarkerIdx (marker : List Char) : List (List Char) → Option Nat
  | [] => none
  | line :: rest =>
    if hasSub marker line then some 0 else (findMarkerIdx marker rest).map (· + 1)

/-- The line selection of `trim_test_lines` (src/pii_detector.py
lines 183-195): slice strictly between both markers when both are found,
after the start marker when only it is found, before the end marker when only
it is found, and the whole list when neither is found.  Python slices
translate as drop-then-take. -/
def coreLines (lines : List (List Char)) : List (List Char) :=
  match (findMarkerIdx startMarker lines).map (· + 1), findMarkerIdx endMarker lines with
  | some si, some ei => (lines.drop si).take (ei - si)
  | some si, none => lines.drop si
  | none, some ei => lines.take ei
  | none, none => lines

/-- `trim_test_lines` (src/pii_detector.py lines 151-197). -/
def trim_test_lines (content : List Char) : List Char :=
  joinNL (coreLines (splitNL content))

/-- Python `str.strip`: remove leading and trailing whitespace. -/
def stripWS (l : List Char) : List Char :=
  ((l.dropWhile isWS).reverse.dropWhile isWS).reverse

/-- Python `re.sub(r'\s+', ' ', s)`: replace every maximal whitespace run
with a single space. -/
def collapseWS : List Char → List Char
  | [] => []
  | [c] => [if isWS c then ' ' else c]
  | c :: d :: rest =>
    if isWS c && isWS d then collapseWS (d :: rest)
    else (if isWS c then ' ' else c) :: collapseWS (d :: rest)

/-- The content transform applied by `load_checksum_algorithm`
(src/pii_detector.py lines 141-145): trim the test lines, then
`re.sub(r'\s+', ' ', content.strip())`. -/
def loadTransform (content : List Char) : List Char :=
  collapseWS (stripWS (trim_test_lines content))

/-- The transform the claim describes (modelled from the spec wording, for
comparison with `loadTransform`): after trimming, every whitespace run is
collapsed to a single space — with no removal of leading or trailing
whitespace. -/
def loadTransformClaim (content : List Char) : List Char :=
  collapseWS (trim_test_lines content)

/-- A concrete raw checksum source with both markers present, used to witness
the marker-trim behaviour. -/
def demoChecksumSrc : List Char :=
  ("junk header\n// Anything on this line or above will be removed\nint a = 1;\n" ++
    "// Return statement goes here so you can validate if passChecksum is working in your lab" ++
    "\nreturn a;").data

/-! ### `load_checksum_algorithm`, `build_update_query` and `execute_update`
as an effect trace -/

/-- Network side effects of `execute_update` (src/pii_detector.py
lines 494-571), in order of occurrence: the keyword-mapping validation GET,
the field-mapping GET/PUT, and the `_update_by_query` POST. -/
inductive NetAction where
  | validateKeywordMapping
  | ensureFieldMapping
  | postUpdateByQuery
deriving DecidableEq, Repr

/-- Error message prefix of the `FileNotFoundError` raised by
`load_checksum_algorithm` (src/pii_detector.py line 135). -/
def algMsgPre : List Char := "Checksum algorithm file not found: checksums/".data

/-- Error message suffix (the `.painless` extension of the algorithm path). -/
def algMsgSuf : List Char := ".painless".data

/-- `load_checksum_algorithm` (src/pii_detector.py lines 121-149): the
checksum library is a lookup from algorithm name to raw file content; a
missing file raises `FileNotFoundError` naming the attempted path, otherwise
the content is trimmed and collapsed to a single line. -/
def load_checksum_algorithm (library : String → Option (List Char)) (name : String) :
    Except (List Char) (List Char) :=
  match library name with
  | none => Except.error (algMsgPre ++ name.data ++ algMsgSuf)
  | some content => Except.ok (loadTransform content)

/-- `build_update_query` (src/pii_detector.py lines 220-285), reduced to the
parts relevant to query selection and error propagation: reverse mode never
loads the checksum algorithm; forward mode with a configured checksum loads
it (propagating a not-found error) before building the selection query. -/
def build_update_query (library : String → Option (List Char)) (cfg : PiiConfig)
    (reverse ner_mode : Bool) : Except (List Char) BoolQuery :=
  if reverse then
    Except.ok (build_complete_query cfg "document_text" (some cfg.fieldName) true false ner_mode)
  else
    match cfg.checksum with
    | some alg =>
      match load_checksum_algorithm library alg with
      | Except.error e => Except.error e
      | Except.ok _ =>
        Except.ok
          (build_complete_query cfg "document_text" (some cfg.fieldName) false false ner_mode)
    | none =>
      Except.ok
        (build_complete_query cfg "document_text" (some cfg.fieldName) false false ner_mode)

/-- `execute_update` (src/pii_detector.py lines 494-571) as a network-action
trace paired with an outcome.  Outside dry-run mode the code first validates
the `document_text.keyword` mapping (a GET, aborting when it is absent) and
ensures the target field mapping (further network calls), and only then calls
`build_update_query`; the `_update_by_query` POST happens last.  In dry-run
mode `build_update_query` runs with no network activity. -/
def execute_update (library : String → Option (List Char)) (cfg : PiiConfig)
    (dry_run reverse ner_mode keywordOk : Bool) : List NetAction × Except (List Char) Unit :=
  if dry_run then
    match build_update_query library cfg reverse ner_mode with
    | Except.error e => ([], Except.error e)
    | Except.ok _ => ([], Except.ok ())
  else if !keywordOk then
    ([NetAction.validateKeywordMapping],
      Except.error "document_text.keyword mapping is required but not found".data)
  else
    match build_update_query library cfg reverse ner_mode with
    | Except.error e =>
      ([NetAction.validateKeywordMapping, NetAction.ensureFieldMapping], Except.error e)
    | Except.ok _ =>
      ([NetAction.validateKeywordMapping, NetAction.ensureFieldMapping,
        NetAction.postUpdateByQuery], Except.ok ())

/-! ## Helper lemmas -/

theorem intercalate_go_append (sep : String) :
    ∀ (as : List String) (a b : String),
      String.intercalate.go (a ++ b) sep as = a ++ String.intercalate.go b sep as := by
  intro as
  induction as with
  | nil => intro a b; rfl
  | cons x xs ih =>
    intro a b
    show String.intercalate.go (a ++ b ++ sep ++ x) sep xs =
      a ++ String.intercalate.go (b ++ sep ++ x) sep xs
    rw [String.append_assoc, String.append_assoc, ih, ← String.append_assoc]

theorem intercalate_cons_cons (sep w x : String) (ws : List String) :
    String.intercalate sep (w :: x :: ws) = w ++ sep ++ String.intercalate sep (x :: ws) := by
  show String.intercalate.go (w ++ sep ++ x) sep ws = w ++ sep ++ String.intercalate.go x sep ws
  rw [intercalate_go_append]

theorem intercalate_eq_joinWith (sep : String) :
    ∀ l : List String, String.intercalate sep l = joinWith sep l := by
  intro l
  induction l with
  | nil => rfl
  | cons w tail ih =>
    cases tail with
    | nil => rfl
    | cons x ws => rw [intercalate_cons_cons, ih]; rfl

theorem checksumFirstPass_eq_find (passes : List Char → Bool) (groups : List (List Char)) :
    checksumFirstPass passes groups = groups.find? fun g => passes (cleanDigits g) := by
  induction groups with
  | nil => rfl
  | cons g gs ih =>
    by_cases h : passes (cleanDigits g) <;> simp [checksumFirstPass, List.find?, h, ih]

/-! ## Claim theorems -/

/-- C1 (counterexample): the composite regex built by `build_checksum_regex`
for pattern `x` and context word `a.b` keeps the context word verbatim,
whereas the claimed form escapes it for literal regex use (`a\.b`); the two
differ. -/
theorem build_checksum_regex_escape_cex :
    build_checksum_regex "x" ["a.b"] = "(?i)(a.b)[\\s\\S]\x7b0,50\x7d?(x)" ∧
    build_checksum_regex_claim 50 "x" ["a.b"] = "(?i)(a\\.b)[\\s\\S]\x7b0,50\x7d?(x)" ∧
    build_checksum_regex "x" ["a.b"] ≠ build_checksum_regex_claim 50 "x" ["a.b"] := by
  refine ⟨rfl, rfl, ?_⟩
  decide

/-- C1 (amended): the composite regex equals
`(?i)(<alternation>)[\s\S]\x7b0,50\x7d?(<pattern-body>)` where the gap bound
is fixed at 50, the pattern body is the pattern regex with each `/` escaped
as `\/`, and the context alternation is the context words joined by `|`
verbatim (NOT escaped for literal regex use), degenerating to the
match-anything `.*` when the context word list is empty. -/
theorem build_checksum_regex_form :
    (∀ p : String,
        build_checksum_regex p [] =
          "(?i)(.*)[\\s\\S]\x7b0,50\x7d?(" ++ escapeSlashes p ++ ")") ∧
    (∀ p w : String,
        build_checksum_regex p [w] =
          "(?i)(" ++ w ++ ")[\\s\\S]\x7b0,50\x7d?(" ++ escapeSlashes p ++ ")") ∧
    (∀ (p w x : String) (ws : List String),
        build_checksum_regex p (w :: x :: ws) =
          "(?i)(" ++ (w ++ "|" ++ joinWith "|" (x :: ws)) ++ ")[\\s\\S]\x7b0,50\x7d?(" ++
            escapeSlashes p ++ ")") ∧
    build_checksum_regex "a/b" ["w"] = "(?i)(w)[\\s\\S]\x7b0,50\x7d?(a\\/b)" := by
  refine ⟨fun p => rfl, fun p w => rfl, ?_, rfl⟩
  intro p w x ws
  show "(?i)(" ++ String.intercalate "|" (w :: x :: ws) ++ _ ++ escapeSlashes p ++ ")" = _
  rw [intercalate_cons_cons, intercalate_eq_joinWith]

/-- C2 (counterexample): with text `SSN 123`, pattern regex `N 12` and context
word `SSN`, `re.finditer` yields the pattern occurrence (2, 6) and the
context occurrence (0, 3); the occurrences overlap, so no pattern occurrence
starts at or after the position where the context occurrence ends, yet the
code classifies the context occurrence as near (its start 0 precedes the
pattern start 2 and the signed gap 2 - 3 = -1 is below the window). -/
theorem contextIsNear_overlap_cex :
    contextIsNear [(2, 6)] 0 3 50 = true ∧ ¬ contextIsNearClaim [(2, 6)] 0 3 50 := by
  constructor
  · decide
  · unfold contextIsNearClaim
    decide

/-- C2 (amended): a context occurrence is classified near iff some pattern
occurrence STARTS strictly after the context occurrence's START with
`pattern_start - context_end ≤ maxGap` (the signed gap may be negative when
the occurrences overlap); in particular a context occurrence beginning at or
after every pattern occurrence's start is always far. -/
theorem contextIsNear_iff :
    ∀ (pms : List (Nat × Nat)) (cstart cend : Nat) (prox : Int),
      contextIsNear pms cstart cend prox = true ↔
        ∃ pm ∈ pms, cstart < pm.1 ∧ (pm.1 : Int) - (cend : Int) ≤ prox := by
  intro pms cstart cend prox
  simp [contextIsNear]

/-- C4: the generated checksum Painless scripts iterate the matches in
document order and stop at the first whose digit-cleaned group 2 passes the
checksum: the loop result is exactly `List.find?` over the cleaned captures;
the PII-mode boolean is whether ANY match passed; the NER-mode write leaves
the document untouched when no match passes; and when only the second of two
captures passes, the recorded value is the second capture's raw (pre-clean)
text `12-3`, dash included. -/
theorem checksum_script_semantics :
    ∀ (passes : List Char → Bool) (groups : List (List Char)),
      (checksumFirstPass passes groups = groups.find? fun g => passes (cleanDigits g)) ∧
      (piiChecksumFlag passes groups = groups.any fun g => passes (cleanDigits g)) ∧
      (∀ doc, nerChecksumUpdate (fun _ => false) groups doc = doc) ∧
      nerChecksumUpdate (fun s => s == "123".data) ["12-4".data, "12-3".data] none =
        some "12-3".data := by
  intro passes groups
  have hnone : ∀ gs : List (List Char), checksumFirstPass (fun _ => false) gs = none := by
    intro gs
    induction gs with
    | nil => rfl
    | cons g gs ih => simp [checksumFirstPass, ih]
  refine ⟨checksumFirstPass_eq_find passes groups, ?_, ?_, by decide⟩
  · rw [Bool.eq_iff_iff]
    rw [piiChecksumFlag, checksumFirstPass_eq_find]
    simp
  · intro doc
    rw [nerChecksumUpdate, hnone]

/-- C8 (counterexample): with the malformed pattern regex `(` (which fails to
compile, modelled by a `none` pattern scan) and input text `<b>`, the
highlighter returns the HTML-escaped text `&lt;b&gt;`, not the input text
unmodified. -/
theorem highlight_malformed_cex :
    highlight_document_text_html "<b>".data true none [] 50 ≠ "<b>".data := by
  decide

/-- C8 (amended): when the pattern regex fails to compile the highlighter
returns the HTML-ESCAPED input text with no highlight markup (identical to
the input exactly on texts free of HTML-special characters), and within this
model it is a total function, never raising. -/
theorem highlight_malformed_fallback :
    (∀ (text : List Char) (cms : List (Nat × Nat × List Char)) (prox : Int) (b : Bool),
        highlight_document_text_html text b none cms prox = htmlEscape text) ∧
    htmlEscape "abc 123".data = "abc 123".data ∧
    highlight_document_text_html "<b>".data true none [] 50 = "&lt;b&gt;".data := by
  refine ⟨?_, by decide, by decide⟩
  intro text cms prox b
  by_cases h : text.isEmpty || !b <;> simp [highlight_document_text_html, h]

theorem hasPre_self_append : ∀ (m t : List Char), hasPre m (m ++ t) = true := by
  intro m
  induction m with
  | nil => intro t; rfl
  | cons c cs ih => intro t; simp [hasPre, ih]

theorem hasSub_append_self : ∀ (s m t : List Char), hasSub m (s ++ m ++ t) = true := by
  intro s
  induction s with
  | nil =>
    intro m t
    cases m with
    | nil => cases t <;> simp [hasSub, hasPre]
    | cons c cs =>
      show (hasPre (c :: cs) ((c :: cs) ++ t) || hasSub (c :: cs) (cs ++ t)) = true
      rw [hasPre_self_append]
      simp
  | cons c s ih =>
    intro m t
    show (hasPre m ((c :: s) ++ m ++ t) || hasSub m (s ++ m ++ t)) = true
    rw [ih m t]
    simp

/-- C3: structure of the selection predicate built by `build_complete_query`:
the `document_text` existence test is always required; forward (non-reverse)
mode additionally requires the pattern `regexp` on the `.keyword` subfield;
outside search mode a given target field name contributes a `must_not`
existence test on the PII / named_entities bucket (so already-labeled
documents are never re-selected by the forward-mutate predicate); in reverse
mode the pattern `regexp` moves to `must_not` and never occurs in `must`; in
search mode the already-labeled exclusion is dropped entirely. -/
theorem build_complete_query_clauses :
    ∀ (cfg : PiiConfig) (field : String) (fname : Option String) (fn : String)
      (reverse search_mode ner_mode : Bool),
      (EsClause.existsField "document_text"
          ∈ (build_complete_query cfg field fname reverse search_mode ner_mode).must) ∧
      (EsClause.regexp (field ++ ".keyword") (".*" ++ cfg.patternRegex ++ ".*")
          ∈ (build_complete_query cfg field fname false search_mode ner_mode).must) ∧
      (EsClause.existsField ((if ner_mode then "named_entities" else "PII") ++ "." ++ fn)
          ∈ (build_complete_query cfg field (some fn) reverse false ner_mode).mustNot) ∧
      (EsClause.regexp (field ++ ".keyword") (".*" ++ cfg.patternRegex ++ ".*")
          ∈ (build_complete_query cfg field fname true search_mode ner_mode).mustNot) ∧
      ((build_complete_query cfg field fname reverse true ner_mode).mustNot =
        if reverse then
          [EsClause.regexp (field ++ ".keyword") (".*" ++ cfg.patternRegex ++ ".*")]
        else []) ∧
      ((build_complete_query cfg field fname true search_mode ner_mode).must =
        [EsClause.existsField "document_text"] ++
          (if cfg.contextWords.isEmpty then []
           else
             [EsClause.queryString
               (String.intercalate " OR " (cfg.contextWords.map contextQueryPart))
               "document_text"])) := by
  intro cfg field fname fn reverse search_mode ner_mode
  refine ⟨?_, ?_, ?_, ?_, ?_, ?_⟩
  · cases reverse <;> by_cases h : cfg.contextWords.isEmpty <;>
      simp [build_complete_query, h]
  · by_cases h : cfg.contextWords.isEmpty <;> simp [build_complete_query, h]
  · cases reverse <;> simp [build_complete_query]
  · cases fname <;> by_cases h : search_mode <;> simp [build_complete_query, h]
  · cases fname <;> cases reverse <;> simp [build_complete_query]
  · by_cases h : cfg.contextWords.isEmpty <;> simp [build_complete_query, h]

/-- C10: in every mode — forward, reverse and search alike — a non-empty
context word list contributes a mandatory `query_string` clause over
`document_text` joining the context words with OR, each phrase containing an
internal space being double-quoted and each single word used verbatim; so a
document containing the pattern but none of the context words never satisfies
the `must` clauses. -/
theorem context_words_always_required :
    ∀ (fn pr : String) (cs : Option String) (w : String) (ws : List String)
      (field : String) (fname : Option String) (reverse search_mode ner_mode : Bool),
      (EsClause.queryString
          (String.intercalate " OR " ((w :: ws).map contextQueryPart)) "document_text"
        ∈ (build_complete_query ⟨fn, pr, w :: ws, cs⟩ field fname reverse search_mode
            ner_mode).must) ∧
      contextQueryPart "tax file number" = "\"tax file number\"" ∧
      contextQueryPart "TFN" = "TFN" := by
  intro fn pr cs w ws field fname reverse search_mode ner_mode
  refine ⟨?_, rfl, rfl⟩
  cases reverse <;> simp [build_complete_query]

/-- C9 (counterexample): with checksum algorithm `tfn` configured but no
algorithm definition on disk, a forward mutate run outside dry-run mode
performs the keyword-mapping validation GET and the field-mapping calls —
network actions — BEFORE `build_update_query` raises the not-found error, so
the failure does not abort before any network action as claimed. -/
theorem missing_algorithm_network_cex :
    execute_update (fun _ => none) ⟨"HasTFN", "p", [], some "tfn"⟩ false false false true =
      ([NetAction.validateKeywordMapping, NetAction.ensureFieldMapping],
        Except.error (algMsgPre ++ "tfn".data ++ algMsgSuf)) ∧
    (execute_update (fun _ => none) ⟨"HasTFN", "p", [], some "tfn"⟩ false false false
        true).1 ≠ [] := by
  constructor
  · rfl
  · decide

/-- C9 (amended): whenever the configured checksum algorithm has no
definition in the library, every forward mutate run fails with the
FileNotFoundError message naming the attempted algorithm (the name occurs
verbatim in the message), and the failure always precedes the
`_update_by_query` POST — no document mutation is ever attempted — though in
non-dry-run mode the mapping-validation and mapping-ensure network calls have
already happened; in dry-run mode no network action at all precedes the
failure. -/
theorem missing_algorithm_abort :
    ∀ (fn pr : String) (cw : List String) (name : String) (ner_mode dry_run : Bool),
      ((execute_update (fun _ => none) ⟨fn, pr, cw, some name⟩ dry_run false ner_mode
          true).2 =
        Except.error (algMsgPre ++ name.data ++ algMsgSuf)) ∧
      ((execute_update (fun _ => none) ⟨fn, pr, cw, some name⟩ dry_run false ner_mode
          true).1.contains NetAction.postUpdateByQuery = false) ∧
      ((execute_update (fun _ => none) ⟨fn, pr, cw, some name⟩ true false ner_mode
          true).1 = []) ∧
      hasSub name.data (algMsgPre ++ name.data ++ algMsgSuf) = true := by
  intro fn pr cw name ner_mode dry_run
  refine ⟨?_, ?_, rfl, hasSub_append_self algMsgPre name.data algMsgSuf⟩
  · cases dry_run <;>
      simp [execute_update, build_update_query, load_checksum_algorithm]
  · cases dry_run <;>
      simp [execute_update, build_update_query, load_checksum_algorithm, List.contains]

theorem joinNL_cons (c : Char) (r : List Char) (rs : List (List Char)) :
    joinNL ((c :: r) :: rs) = c :: joinNL (r :: rs) := by
  cases rs <;> rfl

theorem splitNL_ne_nil : ∀ cs : List Char, splitNL cs ≠ [] := by
  intro cs
  cases cs with
  | nil => simp [splitNL]
  | cons c rest =>
    simp only [splitNL]
    split
    · simp
    · split <;> simp

theorem joinNL_splitNL : ∀ cs : List Char, joinNL (splitNL cs) = cs := by
  intro cs
  induction cs with
  | nil => rfl
  | cons c rest ih =>
    by_cases h : c = '\n'
    · subst h
      obtain ⟨r, rs, hr⟩ := List.exists_cons_of_ne_nil (splitNL_ne_nil rest)
      simp only [splitNL, if_pos rfl]
      rw [hr]
      show '\n' :: joinNL (r :: rs) = '\n' :: rest
      rw [← hr, ih]
    · simp only [splitNL, if_neg h]
      obtain ⟨r, rs, hr⟩ := List.exists_cons_of_ne_nil (splitNL_ne_nil rest)
      rw [hr, joinNL_cons, ← hr, ih]

theorem findMarkerIdx_eq_findIdx (m : List Char) :
    ∀ ls : List (List Char), findMarkerIdx m ls = ls.findIdx? (hasSub m) := by
  intro ls
  induction ls with
  | nil => rfl
  | cons l rest ih =>
    by_cases h : hasSub m l
    · simp [findMarkerIdx, h]
    · simp [findMarkerIdx, h, List.findIdx?_succ, ih]

theorem collapseWS_mem :
    ∀ (l : List Char) (c : Char), c ∈ collapseWS l → c = ' ' ∨ isWS c = false := by
  intro l
  induction l with
  | nil => intro c h; simp [collapseWS] at h
  | cons a tail ih =>
    cases tail with
    | nil =>
      intro c h
      simp only [collapseWS, List.mem_singleton] at h
      by_cases hw : isWS a
      · left; rw [h, if_pos hw]
      · right; rw [h, if_neg hw]; exact Bool.of_not_eq_true hw
    | cons b rest =>
      intro c h
      simp only [collapseWS] at h
      split at h
      · exact ih c h
      · rcases List.mem_cons.mp h with rfl | h2
        · by_cases hw : isWS a
          · left; rw [if_pos hw]
          · right; rw [if_neg hw]; exact Bool.of_not_eq_true hw
        · exact ih c h2

theorem collapseWS_no_newline (l : List Char) : (collapseWS l).contains '\n' = false := by
  by_contra h
  rw [Bool.not_eq_false] at h
  have hm : '\n' ∈ collapseWS l := by
    simpa using h
  rcases collapseWS_mem l _ hm with h1 | h1
  · exact absurd h1 (by decide)
  · exact absurd h1 (by decide)

/-- C5 (counterexample): on the raw content consisting of a space followed by
`a` (no markers present), the code strips the leading whitespace entirely and
yields `a`, whereas the claimed transform — collapsing every whitespace run
to a single space — yields a space followed by `a`; the two differ. -/
theorem load_transform_strip_cex :
    loadTransform " a".data = "a".data ∧
    loadTransformClaim " a".data = " a".data ∧
    loadTransform " a".data ≠ loadTransformClaim " a".data := by
  refine ⟨by decide, by decide, by decide⟩

/-- C5 (amended): the loaded checksum content is trimmed by first marker
occurrence — both markers present keeps exactly the lines strictly between
them, only the start marker keeps everything after it, only the end marker
keeps everything before it, neither keeps the content unmodified (splitting
then re-joining lines is the identity) — and afterwards the content is
STRIPPED of leading and trailing whitespace and every internal whitespace run
is collapsed to a single space, so the result contains no newline; the demo
content exercises the both-markers case. -/
theorem trim_and_collapse_cases :
    ∀ content : List Char,
      (trim_test_lines content =
        joinNL
          (match (findMarkerIdx startMarker (splitNL content)).map (· + 1),
              findMarkerIdx endMarker (splitNL content) with
            | some si, some ei => ((splitNL content).take ei).drop si
            | some si, none => (splitNL content).drop si
            | none, some ei => (splitNL content).take ei
            | none, none => splitNL content)) ∧
      joinNL (splitNL content) = content ∧
      (∀ (m : List Char) (ls : List (List Char)),
          findMarkerIdx m ls = ls.findIdx? (hasSub m)) ∧
      loadTransform content = collapseWS (stripWS (trim_test_lines content)) ∧
      (loadTransform content).contains '\n' = false ∧
      trim_test_lines demoChecksumSrc = "int a = 1;".data ∧
      loadTransform demoChecksumSrc = "int a = 1;".data := by
  intro content
  refine ⟨?_, joinNL_splitNL content, fun m ls => findMarkerIdx_eq_findIdx m ls, rfl,
    collapseWS_no_newline _, by decide, by decide⟩
  unfold trim_test_lines coreLines
  rcases hs : (findMarkerIdx startMarker (splitNL content)).map (· + 1) with _ | si <;>
    rcases he : findMarkerIdx endMarker (splitNL content) with _ | ei <;> simp only []
  congr 1
  rcases Nat.le_total si ei with hle | hle
  · rw [List.take_drop, Nat.add_sub_cancel' hle]
  · have h1 : ((splitNL content).drop si).take (ei - si) = [] := by
      rw [Nat.sub_eq_zero_of_le hle, List.take_zero]
    have h2 : ((splitNL content).take ei).drop si = [] := by
      apply List.drop_of_length_le
      exact Nat.le_trans (List.length_take_le _ _) hle
    rw [h1, h2]

theorem overlapsB_false_iff (s1 e1 s2 e2 : Nat) :
    overlapsB s1 e1 s2 e2 = false ↔ (e1 ≤ s2 ∨ e2 ≤ s1) := by
  simp [overlapsB]
  omega

theorem dedupeRanges_sublist : ∀ (l : List HRange) (seen), (dedupeRanges l seen).Sublist l := by
  intro l
  induction l with
  | nil => intro seen; simp [dedupeRanges]
  | cons r rest ih =>
    intro seen
    simp only [dedupeRanges]
    split
    · exact (ih seen).cons r
    · exact (ih _).cons₂ r

theorem dedupeRanges_no_overlap_seen :
    ∀ (l : List HRange) (seen) (r : HRange), r ∈ dedupeRanges l seen →
      ∀ se ∈ seen, overlapsB r.rstart r.rstop se.1 se.2 = false := by
  intro l
  induction l with
  | nil => intro seen r hr; simp [dedupeRanges] at hr
  | cons a rest ih =>
    intro seen r hr se hse
    simp only [dedupeRanges] at hr
    split at hr
    · exact ih seen r hr se hse
    · rename_i hg
      rcases List.mem_cons.mp hr with rfl | hr2
      · have hall := List.any_eq_false.mp (Bool.of_not_eq_true hg)
        exact Bool.of_not_eq_true (hall se hse)
      · exact ih _ r hr2 se (List.mem_cons_of_mem _ hse)

theorem dedupeRanges_pairwise :
    ∀ (l : List HRange) (seen), (dedupeRanges l seen).Pairwise NoOv := by
  intro l
  induction l with
  | nil => intro seen; simp [dedupeRanges]
  | cons a rest ih =>
    intro seen
    simp only [dedupeRanges]
    split
    · exact ih seen
    · refine List.Pairwise.cons ?_ (ih _)
      intro b hb
      have h := dedupeRanges_no_overlap_seen rest _ b hb (a.rstart, a.rstop)
        (List.mem_cons_self _ _)
      rcases (overlapsB_false_iff _ _ _ _).mp h with h1 | h1
      · exact Or.inr h1
      · exact Or.inl h1

/-- C6: overlap resolution sorts the candidate spans by start ascending then
end descending, then greedily keeps a span only if it overlaps no previously
kept span — kept spans are a subsequence of the candidates (overlapping
duplicates are rejected, never merged) and are pairwise non-overlapping; on
the candidate spans [5,15) and [8,12) (in either input order) only [5,15) is
kept. -/
theorem overlap_resolution_greedy :
    (∀ (l : List HRange) (seen : List (Nat × Nat)),
        (dedupeRanges l seen).Pairwise NoOv ∧ (dedupeRanges l seen).Sublist l) ∧
    (∀ l : List HRange, (sortRanges l).Sorted keyLe ∧ (sortRanges l).Perm l) ∧
    resortRanges (dedupeRanges (sortRanges
        [⟨8, 12, HKind.near, []⟩, ⟨5, 15, HKind.pat, []⟩]) []) =
      [⟨5, 15, HKind.pat, []⟩] ∧
    resortRanges (dedupeRanges (sortRanges
        [⟨5, 15, HKind.pat, []⟩, ⟨8, 12, HKind.near, []⟩]) []) =
      [⟨5, 15, HKind.pat, []⟩] := by
  refine ⟨fun l seen => ⟨dedupeRanges_pairwise l seen, dedupeRanges_sublist l seen⟩,
    fun l => ⟨List.sorted_insertionSort keyLe l, List.perm_insertionSort keyLe l⟩,
    by decide, by decide⟩

theorem stripSegs_append :
    ∀ xs ys : List Seg, stripSegs (xs ++ ys) = stripSegs xs ++ stripSegs ys := by
  intro xs ys
  induction xs with
  | nil => rfl
  | cons s rest ih => simp [stripSegs, ih]

theorem NoOv_symm : ∀ {a b : HRange}, NoOv a b → NoOv b a := fun h => Or.symm h

theorem buildSegs_strip (text : List Char) :
    ∀ (l : List HRange) (lastPos : Nat),
      lastPos ≤ text.length →
      (∀ r ∈ l, lastPos ≤ r.rstart) →
      l.Pairwise NoOv →
      l.Sorted startLe →
      (∀ r ∈ l,
        r.rstart < r.rstop ∧ r.rstop ≤ text.length ∧
          r.mtext = (text.drop r.rstart).take (r.rstop - r.rstart)) →
      stripSegs (buildSegs text lastPos l) = text.drop lastPos := by
  intro l
  induction l with
  | nil =>
    intro lastPos hle _ _ _ _
    simp only [buildSegs]
    split
    · simp [stripSegs, stripSeg]
    · rename_i hnlt
      rw [List.drop_of_length_le (by omega)]
      rfl
  | cons r rest ih =>
    intro lastPos hle hstart hpw hsorted hvalid
    obtain ⟨hrs, hre, hrm⟩ := hvalid r (List.mem_cons_self r rest)
    have hlast : lastPos ≤ r.rstart := hstart r (List.mem_cons_self r rest)
    have hsort2 := List.sorted_cons.mp hsorted
    have hpw2 := List.pairwise_cons.mp hpw
    have hnext : ∀ x ∈ rest, r.rstop ≤ x.rstart := by
      intro x hx
      rcases hpw2.1 x hx with h1 | h1
      · exact h1
      · obtain ⟨hxs, _, _⟩ := hvalid x (List.mem_cons_of_mem r hx)
        have := hsort2.1 x hx
        omega
    have htail : stripSegs (buildSegs text r.rstop rest) = text.drop r.rstop :=
      ih r.rstop hre hnext hpw2.2 hsort2.2
        (fun x hx => hvalid x (List.mem_cons_of_mem r hx))
    show stripSegs ((if lastPos < r.rstart then
        [Seg.lit ((text.drop lastPos).take (r.rstart - lastPos))] else []) ++
        Seg.hl r.kind r.mtext :: buildSegs text r.rstop rest) = text.drop lastPos
    rw [stripSegs_append]
    have hmid : stripSegs (Seg.hl r.kind r.mtext :: buildSegs text r.rstop rest) =
        text.drop r.rstart := by
      show r.mtext ++ stripSegs (buildSegs text r.rstop rest) = text.drop r.rstart
      rw [htail, hrm]
      have hglue := List.drop_take_append_drop text r.rstart (r.rstop - r.rstart)
      rw [Nat.add_sub_cancel' (Nat.le_of_lt hrs)] at hglue
      exact hglue
    rw [hmid]
    by_cases hlt : lastPos < r.rstart
    · rw [if_pos hlt]
      have hglue2 := List.drop_take_append_drop text lastPos (r.rstart - lastPos)
      rw [Nat.add_sub_cancel' hlast] at hglue2
      simpa [stripSegs, stripSeg] using hglue2
    · rw [if_neg hlt]
      have heq : lastPos = r.rstart := Nat.le_antisymm hlast (Nat.not_lt.mp hlt)
      rw [heq]
      simp [stripSegs]

theorem buildRanges_valid (text : List Char) (pms cms : List (Nat × Nat × List Char))
    (prox : Int) (hp : ∀ m ∈ pms, ValidMatch text m)
    (hc : ∀ m ∈ cms, ValidMatch text m) :
    ∀ r ∈ buildRanges pms cms prox,
      r.rstart < r.rstop ∧ r.rstop ≤ text.length ∧
        r.mtext = (text.drop r.rstart).take (r.rstop - r.rstart) := by
  intro r hr
  rcases List.mem_append.mp hr with h | h
  · obtain ⟨m, hm, rfl⟩ := List.mem_map.mp h
    exact hp m hm
  · obtain ⟨m, hm, rfl⟩ := List.mem_map.mp h
    exact hc m hm

/-- C7 (counterexample): with text `a b`, pattern regex `b*` and context word
`a`, `re.finditer` yields the pattern occurrences (0,0), (1,1), (2,3), (3,3)
— `b*` matches the empty string at every non-`b` position — and the context
occurrence (0,1); rendering and stripping all markup yields `aa b` (the
character `a` is emitted twice), not the original text, because an empty
kept span resets `last_pos` backwards. -/
theorem highlight_round_trip_cex :
    stripSegs (highlightSegments "a b".data
        [(0, 0, []), (1, 1, []), (2, 3, "b".data), (3, 3, [])] [(0, 1, "a".data)] 50) =
      "aa b".data ∧
    "aa b".data ≠ "a b".data := by
  refine ⟨by decide, by decide⟩

/-- C7 (amended): whenever every pattern occurrence and every context
occurrence is a non-empty span inside the text whose matched text is the
corresponding slice — which holds in particular whenever the pattern regex
cannot match the empty string and every context word is non-empty — the
rendered highlight output with all markup stripped reconstructs the original
input text exactly, covering it with no gaps and no omitted characters. -/
theorem highlight_round_trip :
    ∀ (text : List Char) (pms cms : List (Nat × Nat × List Char)) (prox : Int),
      (∀ m ∈ pms, ValidMatch text m) → (∀ m ∈ cms, ValidMatch text m) →
      stripSegs (highlightSegments text pms cms prox) = text := by
  intro text pms cms prox hp hc
  have hvalid := buildRanges_valid text pms cms prox hp hc
  have hsortperm : (sortRanges (buildRanges pms cms prox)).Perm (buildRanges pms cms prox) :=
    List.perm_insertionSort keyLe _
  have hkept_sub := dedupeRanges_sublist (sortRanges (buildRanges pms cms prox)) []
  have hkept_pw := dedupeRanges_pairwise (sortRanges (buildRanges pms cms prox)) []
  have hfinalperm :
      (resortRanges (dedupeRanges (sortRanges (buildRanges pms cms prox)) [])).Perm
        (dedupeRanges (sortRanges (buildRanges pms cms prox)) []) :=
    List.perm_insertionSort startLe _
  have hfinal_sorted :
      (resortRanges (dedupeRanges (sortRanges (buildRanges pms cms prox)) [])).Sorted
        startLe :=
    List.sorted_insertionSort startLe _
  have hfinal_pw :
      (resortRanges (dedupeRanges (sortRanges (buildRanges pms cms prox)) [])).Pairwise
        NoOv :=
    (hfinalperm.pairwise_iff fun h => NoOv_symm h).mpr hkept_pw
  have hmemvalid :
      ∀ r ∈ resortRanges (dedupeRanges (sortRanges (buildRanges pms cms prox)) []),
        r.rstart < r.rstop ∧ r.rstop ≤ text.length ∧
          r.mtext = (text.drop r.rstart).take (r.rstop - r.rstart) := by
    intro r hr
    exact hvalid r (hsortperm.mem_iff.mp (hkept_sub.subset (hfinalperm.mem_iff.mp hr)))
  have hmain := buildSegs_strip text
    (resortRanges (dedupeRanges (sortRanges (buildRanges pms cms prox)) [])) 0
    (Nat.zero_le _) (fun r _ => Nat.zero_le _) hfinal_pw hfinal_sorted hmemvalid
  show stripSegs (buildSegs text 0
      (resortRanges (dedupeRanges (sortRanges (buildRanges pms cms prox)) []))) = text
  rw [hmain, List.drop_zero]

/-- C7 witness: the round-trip theorem applied to the concrete text `ab 12`
with pattern occurrence (3,5) and context occurrence (0,2). -/
theorem highlight_round_trip_witness :
    stripSegs (highlightSegments "ab 12".data [(3, 5, "12".data)] [(0, 2, "ab".data)] 50) =
      "ab 12".data :=
  highlight_round_trip "ab 12".data [(3, 5, "12".data)] [(0, 2, "ab".data)] 50
    (by intro m hm; simp only [List.mem_singleton] at hm; subst hm; refine ⟨?_, ?_, ?_⟩ <;> decide)
    (by intro m hm; simp only [List.mem_singleton] at hm; subst hm; refine ⟨?_, ?_, ?_⟩ <;> decide)

end FcePii
